import Mathlib

/-!
Shallow embedding of the ytFetcher pipeline: the acquisition retry engine
(src/downloader.py), the output locator (src/downloader.py), the driver loop
and reconciliation scan (src/main.py), the dedup ledger (src/logging_util.py),
and the post-processing worker with its progress tracker (src/transcoder.py).
Python strings are modelled by String, the filesystem by explicit entry lists
or finite maps, and external subprocess runs by outcome oracles.
-/

namespace YtFetcher

/-- Characters after the last slash, model of os.path.basename on a path. -/
def afterLastSlash : List Char → List Char
  | [] => []
  | c :: rest =>
      if c = '/' then afterLastSlash rest
      else if '/' ∈ rest then afterLastSlash rest
      else c :: rest

/-- Model of os.path.basename. -/
def basename (s : String) : String := String.mk (afterLastSlash s.toList)

/-- Index of the extension dot of a bare filename: the last dot that has some
earlier non-dot character, exactly os.path.splitext's rule on a name without
separators. Arguments: remaining characters, current index, whether a non-dot
character has been seen, best index so far. -/
def extDotIdx : List Char → Nat → Bool → Option Nat → Option Nat
  | [], _, _, best => best
  | c :: rest, i, seen, best =>
      if c = '.' then extDotIdx rest (i + 1) seen (if seen then some i else best)
      else extDotIdx rest (i + 1) true best

/-- Model of os.path.splitext on a bare filename (no directory separators). -/
def splitext (name : String) : String × String :=
  match extDotIdx name.toList 0 false none with
  | none => (name, "")
  | some i => (String.mk (name.toList.take i), String.mk (name.toList.drop i))

/-- Model of os.path.join for a directory without trailing slash and a
relative name, the only shape this code base uses. -/
def joinPath (dir name : String) : String := dir ++ "/" ++ name

/-- Model of os.path.splitext on a full path: only dots of the final
component count. -/
def pathSplitext (p : String) : String × String :=
  let l := p.toList
  let nm := afterLastSlash l
  let pr := splitext (String.mk nm)
  (String.mk (l.take (l.length - nm.length)) ++ pr.1, pr.2)

/-- Model of str.lower for the ASCII names this code handles. -/
def strToLower (s : String) : String := String.mk (s.toList.map Char.toLower)

/-- Model of str.endswith. -/
def strEndsWith (s suffix : String) : Bool := List.isSuffixOf suffix.toList s.toList

/-- Model of Python's `in` on strings (substring containment). -/
def containsSub (hay pat : String) : Bool := decide (pat.toList <:+: hay.toList)

/-- Model of str.startswith. -/
def strStartsWith (s p : String) : Bool := List.isPrefixOf p.toList s.toList

/-! ## Acquisition engine, src/downloader.py -/

/-- The dict fields of a media item that download_video reads. -/
structure Video where
  webpage_url : Option String
  url : Option String
  id : Option String
deriving DecidableEq

/-- Python truthiness of an optional string: present and non-empty. -/
def truthy : Option String → Bool
  | some s => s ≠ ""
  | none => false

/-- Python `a or b` on optional strings, keeping the first truthy value. -/
def pyOr (a b : Option String) : Option String := if truthy a then a else b

/-- `video.get("webpage_url") or video.get("url") or video.get("id")`. -/
def videoUrlRaw (v : Video) : Option String := pyOr v.webpage_url (pyOr v.url v.id)

/-- Whether download_video's initial `if not url` guard passes. -/
def hasUrl (v : Video) : Bool := truthy (videoUrlRaw v)

/-- Outcome of one acquisition attempt: the subprocess exit code, and what
_find_downloaded_file would return for the item's id right afterwards. -/
structure AttemptOutcome where
  returncode : Int
  located : Option String
deriving DecidableEq

/-- The path an attempt yields: the locator result is consulted only when the
subprocess exited 0, exactly as in download_video's loop body. -/
def attemptResult (o : AttemptOutcome) : Option String :=
  if o.returncode = 0 then o.located else none

/-- _build_command_with_format raises DownloadError when the item has neither
URL nor id; this models just that fallible check (the command line itself is
consumed only by the external subprocess). -/
def buildCommandCheck (v : Video) : Except String Unit :=
  if hasUrl v then .ok () else .error "Video has no URL or ID"

/-- The inner `while attempt <= retries` loop for one strategy: `tries` runs
remain, `k` attempts were made so far across the whole call.  Returns the
found path (if any) and the new total attempt count. -/
def runStrategyAttempts (runs : Nat → AttemptOutcome) : Nat → Nat → Option String × Nat
  | k, 0 => (none, k)
  | k, t + 1 =>
      match attemptResult (runs k) with
      | some p => (some p, k + 1)
      | none => runStrategyAttempts runs (k + 1) t

/-- The outer `for format_strategy in ...` loop: builds the command for each
strategy (which can raise) and runs its retry loop, stopping at the first
success. -/
def runStrategiesE (v : Video) (runs : Nat → AttemptOutcome) (retries : Nat) :
    Nat → List String → Except String (Option String × Nat)
  | k, [] => .ok (none, k)
  | k, _s :: rest =>
      match buildCommandCheck v with
      | .error e => .error e
      | .ok _ =>
          match runStrategyAttempts runs k (retries + 1) with
          | (some p, k2) => .ok (some p, k2)
          | (none, k2) => runStrategiesE v runs retries k2 rest

/-- The primary format strategy list of download_video. -/
def format_strategies : List String :=
  ["bv*+ba/b", "best[height>=720]/best", "best[height>=480]/best",
   "best[height>=360]/best", "best"]

/-- The alternate-client (Android) fallback strategy list of download_video. -/
def android_strategies : List String := ["best"]

/-- download_video over a strategy list: the `if not url` guard, the primary
strategy loop, then the Android-client fallback loop.  Returns the result
together with the number of primary attempts and of fallback attempts; a
raised DownloadError would surface as `.error`. -/
def download_video (v : Video) (retries : Nat) (strategies : List String)
    (runs : Nat → AttemptOutcome) : Except String (Option String × Nat × Nat) :=
  if hasUrl v then
    match runStrategiesE v runs retries 0 strategies with
    | .error e => .error e
    | .ok (some p, k) => .ok (some p, k, 0)
    | .ok (none, k) =>
        match runStrategiesE v runs retries k android_strategies with
        | .error e => .error e
        | .ok (r, k2) => .ok (r, k, k2 - k)
  else .ok (none, 0, 0)

theorem runStrategyAttempts_fail (runs : Nat → AttemptOutcome)
    (hfail : ∀ k, attemptResult (runs k) = none) :
    ∀ t k, runStrategyAttempts runs k t = (none, k + t) := by
  intro t
  induction t with
  | zero => intro k; simp [runStrategyAttempts]
  | succ t ih =>
      intro k
      have hk : k + 1 + t = k + (t + 1) := by omega
      simp [runStrategyAttempts, hfail k, ih (k + 1), hk]

theorem runStrategiesE_fail (v : Video) (runs : Nat → AttemptOutcome) (retries : Nat)
    (hurl : hasUrl v = true) (hfail : ∀ k, attemptResult (runs k) = none) :
    ∀ l k, runStrategiesE v runs retries k l =
      .ok (none, k + l.length * (retries + 1)) := by
  intro l
  induction l with
  | nil => intro k; simp [runStrategiesE]
  | cons s rest ih =>
      intro k
      have hk : k + (retries + 1) + rest.length * (retries + 1)
          = k + (rest.length + 1) * (retries + 1) := by ring
      simp [runStrategiesE, buildCommandCheck, hurl,
        runStrategyAttempts_fail runs hfail, ih, hk]

/-- C1: for every media item passing the URL-or-id guard, every retry bound
and every primary strategy list of length N, when every acquisition attempt
fails, download_video makes exactly N*(retries+1) primary attempts plus
(retries+1) alternate-client fallback attempts and returns None without
raising. -/
theorem download_video_all_fail (v : Video) (retries : Nat) (strategies : List String)
    (runs : Nat → AttemptOutcome) (hurl : hasUrl v = true)
    (hfail : ∀ k, attemptResult (runs k) = none) :
    download_video v retries strategies runs =
      .ok (none, strategies.length * (retries + 1), retries + 1) := by
  have h1 := runStrategiesE_fail v runs retries hurl hfail strategies 0
  rw [Nat.zero_add] at h1
  have h2 := runStrategiesE_fail v runs retries hurl hfail android_strategies
      (strategies.length * (retries + 1))
  simp only [android_strategies, List.length_cons, List.length_nil, Nat.zero_add,
    Nat.one_mul] at h2
  simp only [download_video, hurl, if_true, android_strategies, h1, h2,
    Nat.add_sub_cancel_left]

/-- A media item with only a webpage URL, for the C1 witness. -/
def w1video : Video :=
  { webpage_url := some "https://example.com/w", url := none, id := some "abc123xyz00" }

/-- An attempt oracle whose every run exits non-zero, for the C1 witness. -/
def w1runs : Nat → AttemptOutcome := fun _ => { returncode := 1, located := none }

/-- Witness for C1: the source's five-strategy list with retries 2 makes 15
primary and 3 fallback attempts and returns None. -/
theorem download_video_all_fail_witness :
    hasUrl w1video = true ∧
    download_video w1video 2 format_strategies w1runs = .ok (none, 15, 3) := by
  refine ⟨by decide, ?_⟩
  have h := download_video_all_fail w1video 2 format_strategies w1runs (by decide)
    (fun _ => rfl)
  exact h

/-! ## Output locator, src/downloader.py _find_downloaded_file -/

/-- One immediate entry of the output directory: its name, whether it is a
regular file, and its modification time (os.path.getmtime). -/
structure FileEntry where
  name : String
  isFile : Bool
  mtime : Int
deriving DecidableEq

/-- The fixed bracket pattern an output filename must contain. -/
def locatorPattern (vid : String) : String := " [" ++ vid ++ "]."

/-- The candidate list _find_downloaded_file builds: entries whose name
contains the bracket pattern and which are regular files. -/
def locatorCandidates (entries : List FileEntry) (vid : String) : List FileEntry :=
  entries.filter (fun e => containsSub e.name (locatorPattern vid) && e.isFile)

/-- Insertion step of a stable sort by modification time, newest first,
modelling `candidates.sort(key=getmtime, reverse=True)`. -/
def insertByMtime (e : FileEntry) : List FileEntry → List FileEntry
  | [] => [e]
  | x :: xs => if x.mtime < e.mtime then e :: x :: xs else x :: insertByMtime e xs

/-- Stable descending sort by modification time. -/
def sortByMtimeDesc (l : List FileEntry) : List FileEntry :=
  l.foldl (fun acc e => insertByMtime e acc) []

/-- Model of _find_downloaded_file: guard on a falsy id, filter the immediate
entries, sort newest-first and return the first candidate's full path. -/
def find_downloaded_file (output_path : String) (entries : List FileEntry)
    (video_id : Option String) : Option String :=
  match video_id with
  | none => none
  | some vid =>
      if vid = "" then none
      else
        match sortByMtimeDesc (locatorCandidates entries vid) with
        | [] => none
        | c :: _ => some (joinPath output_path c.name)

theorem insertByMtime_perm (e : FileEntry) (l : List FileEntry) :
    List.Perm (insertByMtime e l) (e :: l) := by
  induction l with
  | nil => simp [insertByMtime]
  | cons x xs ih =>
      simp only [insertByMtime]
      by_cases h : x.mtime < e.mtime
      · simp [h]
      · rw [if_neg h]
        exact (ih.cons x).trans (List.Perm.swap e x xs)

theorem sortByMtimeDesc_perm (l : List FileEntry) :
    List.Perm (sortByMtimeDesc l) l := by
  suffices h : ∀ acc : List FileEntry,
      List.Perm (l.foldl (fun acc e => insertByMtime e acc) acc) (l ++ acc) by
    simpa using h []
  induction l with
  | nil => intro acc; simp
  | cons x xs ih =>
      intro acc
      simp only [List.foldl_cons, List.cons_append]
      refine (ih (insertByMtime x acc)).trans ?_
      refine (List.Perm.append_left xs (insertByMtime_perm x acc)).trans ?_
      exact List.perm_middle

/-- Entries sorted newest-first: every later entry is no newer. -/
def DescByMtime (l : List FileEntry) : Prop :=
  l.Pairwise (fun a b => b.mtime ≤ a.mtime)

theorem insertByMtime_sorted (e : FileEntry) (l : List FileEntry)
    (h : DescByMtime l) : DescByMtime (insertByMtime e l) := by
  induction l with
  | nil => simp [insertByMtime, DescByMtime]
  | cons x xs ih =>
      rw [DescByMtime, List.pairwise_cons] at h
      simp only [insertByMtime]
      by_cases hx : x.mtime < e.mtime
      · rw [if_pos hx, DescByMtime, List.pairwise_cons]
        refine ⟨?_, List.Pairwise.cons h.1 h.2⟩
        intro b hb
        rcases List.mem_cons.mp hb with rfl | hb
        · omega
        · have := h.1 b hb; omega
      · rw [if_neg hx, DescByMtime, List.pairwise_cons]
        refine ⟨?_, ih h.2⟩
        intro b hb
        rcases List.mem_cons.mp ((insertByMtime_perm e xs).mem_iff.mp hb) with rfl | hb'
        · omega
        · exact h.1 b hb'

theorem sortByMtimeDesc_sorted (l : List FileEntry) : DescByMtime (sortByMtimeDesc l) := by
  suffices h : ∀ acc : List FileEntry, DescByMtime acc →
      DescByMtime (l.foldl (fun acc e => insertByMtime e acc) acc) by
    exact h [] (by simp [DescByMtime])
  induction l with
  | nil => intro acc hacc; simpa using hacc
  | cons x xs ih =>
      intro acc hacc
      exact ih _ (insertByMtime_sorted x acc hacc)

/-- C7 conclusion: the locator returns nothing exactly when no immediate entry
is a regular file containing the bracket-delimited identifier, and otherwise
returns the full path of a candidate of maximal modification time. -/
def LocatorSpec (out : String) (entries : List FileEntry) (vid : String) : Prop :=
  (find_downloaded_file out entries (some vid) = none ↔ locatorCandidates entries vid = []) ∧
  (∀ p, find_downloaded_file out entries (some vid) = some p →
    ∃ e ∈ locatorCandidates entries vid, p = joinPath out e.name ∧
      e.isFile = true ∧ containsSub e.name (locatorPattern vid) = true ∧
      ∀ c ∈ locatorCandidates entries vid, c.mtime ≤ e.mtime)

/-- C7: for every output directory listing and non-empty identifier, the
locator considers only regular-file entries whose name contains the fixed
bracket pattern, returns none when there is no such file, and otherwise
returns the most recently modified candidate. -/
theorem find_downloaded_file_spec (out : String) (entries : List FileEntry)
    (vid : String) (hvid : vid ≠ "") : LocatorSpec out entries vid := by
  have hperm := sortByMtimeDesc_perm (locatorCandidates entries vid)
  have hsorted := sortByMtimeDesc_sorted (locatorCandidates entries vid)
  constructor
  · simp only [find_downloaded_file, if_neg hvid]
    cases hs : sortByMtimeDesc (locatorCandidates entries vid) with
    | nil =>
        rw [hs] at hperm
        simp only [true_iff]
        exact (hperm.symm.eq_nil)
    | cons c rest =>
        rw [hs] at hperm
        simp only [reduceCtorEq, false_iff]
        intro hc
        rw [hc] at hperm
        exact (List.cons_ne_nil c rest) hperm.eq_nil
  · intro p hp
    simp only [find_downloaded_file, if_neg hvid] at hp
    cases hs : sortByMtimeDesc (locatorCandidates entries vid) with
    | nil => rw [hs] at hp; exact absurd hp (by simp)
    | cons c rest =>
        rw [hs] at hp
        simp only [Option.some.injEq] at hp
        rw [hs] at hperm hsorted
        have hcmem : c ∈ locatorCandidates entries vid :=
          hperm.mem_iff.mp (List.mem_cons_self c rest)
        have hcand := List.mem_filter.mp hcmem
        have hmax : ∀ x ∈ locatorCandidates entries vid, x.mtime ≤ c.mtime := by
          intro x hx
          rcases List.mem_cons.mp (hperm.symm.mem_iff.mp hx) with rfl | hx'
          · omega
          · rw [DescByMtime, List.pairwise_cons] at hsorted
            exact hsorted.1 x hx'
        refine ⟨c, hcmem, hp.symm, ?_, ?_, hmax⟩
        · have h2 := hcand.2
          simp only [Bool.and_eq_true] at h2
          exact h2.2
        · have h2 := hcand.2
          simp only [Bool.and_eq_true] at h2
          exact h2.1

/-- Directory listing for the C7 witness: a stale partial and a fresh
complete file both match the pattern; a directory and an unrelated file do
not count. -/
def w7entries : List FileEntry :=
  [{ name := "clip [XYZ98765432].mp4.part", isFile := true, mtime := 3 },
   { name := "clip [XYZ98765432].mp4", isFile := true, mtime := 9 },
   { name := "clip [XYZ98765432].dir", isFile := false, mtime := 50 },
   { name := "other.mp4", isFile := true, mtime := 99 }]

/-- Witness for C7 on a concrete listing. -/
theorem find_downloaded_file_spec_witness : LocatorSpec "out" w7entries "XYZ98765432" :=
  find_downloaded_file_spec "out" w7entries "XYZ98765432" (by decide)

/-! ## Dedup ledger and driver loop, src/logging_util.py and src/main.py -/

/-- load_downloaded_ids: the set of non-empty stripped lines of the ledger
file (absent file yields the empty set). -/
def load_downloaded_ids (lines : List String) : List String :=
  lines.filter (fun s => s ≠ "")

/-- The dict fields of a media item that the driver loop reads. -/
structure MediaItem where
  id : Option String
  title : Option String
deriving DecidableEq

/-- `v.get("id") or "<no-id>"`. -/
def effectiveId (v : MediaItem) : String :=
  match v.id with
  | some s => if s = "" then "<no-id>" else s
  | none => "<no-id>"

/-- Observable actions of the driver loop, in order: invoking download_video,
enqueueing a post-processing job, appending to the ledger, appending to the
error log. -/
inductive Event
  | invoke (id : String)
  | enqueue (path : String) (remux : Bool)
  | ledgerAppend (id : String)
  | errorLog (line : String)
deriving DecidableEq

/-- The per-item driver loop of main(): skip items whose effective id is in
the startup ledger set, otherwise invoke the acquisition engine (its outcome
given by the oracle `dl` indexed by item position), enqueue the result and
append the id to the ledger on success, or append to the error log on
failure.  The in-memory id set is never updated. -/
def driverEvents (ids : List String) (dl : Nat → Option String) :
    List MediaItem → Nat → List Event
  | [], _ => []
  | v :: rest, i =>
      let vid := effectiveId v
      if ids.contains vid then driverEvents ids dl rest (i + 1)
      else
        (Event.invoke vid ::
          match dl i with
          | some path =>
              Event.enqueue path (strEndsWith (strToLower path) ".mp4") ::
                (if vid ≠ "<no-id>" then [Event.ledgerAppend vid] else [])
          | none => [Event.errorLog ("Failed: " ++ vid)]) ++
        driverEvents ids dl rest (i + 1)

/-- Number of acquisition-engine invocations for a given identifier. -/
def invokeCount (evs : List Event) (id : String) : Nat :=
  (evs.filter (fun ev => ev = Event.invoke id)).length

theorem invokeCount_append (a b : List Event) (id : String) :
    invokeCount (a ++ b) id = invokeCount a id + invokeCount b id := by
  simp [invokeCount, List.filter_append]

/-- C8 conclusion: an identifier in the startup ledger set is never passed to
the acquisition engine, and every ledger append of an identifier x is for an
un-skipped batch item at some position i whose effective id is x and whose
own acquisition — the oracle at that same position i — succeeded. -/
def LedgerSpec (ids : List String) (dl : Nat → Option String)
    (videos : List MediaItem) (id : String) : Prop :=
  invokeCount (driverEvents ids dl videos 0) id = 0 ∧
  (∀ x, Event.ledgerAppend x ∈ driverEvents ids dl videos 0 →
    ids.contains x = false ∧ x ≠ "<no-id>" ∧
      ∃ i, ∃ hi : i < videos.length,
        effectiveId (videos.get ⟨i, hi⟩) = x ∧ ∃ p, dl i = some p)

theorem invokeCount_skip (ids : List String) (dl : Nat → Option String)
    (id : String) (hid : ids.contains id = true) :
    ∀ (videos : List MediaItem) (i : Nat),
      invokeCount (driverEvents ids dl videos i) id = 0 := by
  intro videos
  induction videos with
  | nil => intro i; simp [driverEvents, invokeCount]
  | cons v rest ih =>
      intro i
      simp only [driverEvents]
      by_cases hv : ids.contains (effectiveId v) = true
      · rw [if_pos hv]; exact ih (i + 1)
      · rw [if_neg hv, invokeCount_append]
        rw [ih (i + 1)]
        have hne : effectiveId v ≠ id := by
          intro he; rw [he] at hv; exact hv hid
        cases hdl : dl i with
        | some p =>
            by_cases hno : effectiveId v ≠ "<no-id>" <;>
              simp [invokeCount, List.filter, hne, hno, Event.invoke.injEq]
        | none =>
            simp [invokeCount, List.filter, hne, Event.invoke.injEq]

theorem ledgerAppend_sound (ids : List String) (dl : Nat → Option String) :
    ∀ (videos : List MediaItem) (k : Nat) (x : String),
      Event.ledgerAppend x ∈ driverEvents ids dl videos k →
      ids.contains x = false ∧ x ≠ "<no-id>" ∧
        ∃ j, ∃ hj : j < videos.length,
          effectiveId (videos.get ⟨j, hj⟩) = x ∧ ∃ p, dl (k + j) = some p := by
  intro videos
  induction videos with
  | nil => intro k x hx; simp [driverEvents] at hx
  | cons v rest ih =>
      intro k x hx
      simp only [driverEvents] at hx
      by_cases hv : ids.contains (effectiveId v) = true
      · rw [if_pos hv] at hx
        obtain ⟨h1, h2, j, hj, heff, p, hp⟩ := ih (k + 1) x hx
        refine ⟨h1, h2, j + 1, by simp only [List.length_cons]; omega, ?_, p, ?_⟩
        · exact heff
        · rw [show k + (j + 1) = k + 1 + j from by omega]
          exact hp
      · rw [if_neg hv] at hx
        rw [List.mem_append] at hx
        rcases hx with hx | hx
        · cases hdl : dl k with
          | some p =>
              rw [hdl] at hx
              simp only [List.mem_cons] at hx
              rcases hx with hx | hx | hx
              · exact absurd hx (by simp)
              · exact absurd hx (by simp)
              · by_cases hno : effectiveId v ≠ "<no-id>"
                · rw [if_pos hno] at hx
                  simp only [List.mem_singleton, Event.ledgerAppend.injEq] at hx
                  subst hx
                  refine ⟨?_, hno, 0, by simp, ?_, p, ?_⟩
                  · cases hc : ids.contains (effectiveId v)
                    · rfl
                    · exact absurd hc hv
                  · rfl
                  · rw [Nat.add_zero]
                    exact hdl
                · rw [if_neg hno] at hx
                  exact absurd hx (List.not_mem_nil _)
          | none =>
              rw [hdl] at hx
              simp only [List.mem_cons, List.not_mem_nil, or_false] at hx
              rcases hx with hx | hx
              · exact absurd hx (by simp)
              · exact absurd hx (by simp)
        · obtain ⟨h1, h2, j, hj, heff, p, hp⟩ := ih (k + 1) x hx
          refine ⟨h1, h2, j + 1, by simp only [List.length_cons]; omega, ?_, p, ?_⟩
          · exact heff
          · rw [show k + (j + 1) = k + 1 + j from by omega]
            exact hp

/-- C8: for every startup ledger set, acquisition oracle and batch, an
identifier present in the ledger at startup is skipped — the acquisition
engine is never invoked for it — and an identifier is appended to the ledger
only for an un-skipped item whose own acquisition, at that item's position
in the batch, succeeded. -/
theorem driver_dedup_spec (ids : List String) (dl : Nat → Option String)
    (videos : List MediaItem) (id : String) (hid : ids.contains id = true) :
    LedgerSpec ids dl videos id := by
  refine ⟨invokeCount_skip ids dl id hid videos 0, ?_⟩
  intro x hx
  obtain ⟨h1, h2, j, hj, heff, p, hp⟩ := ledgerAppend_sound ids dl videos 0 x hx
  rw [Nat.zero_add] at hp
  exact ⟨h1, h2, j, hj, heff, p, hp⟩

/-- Batch for the C8/C9 witnesses: the first item's id is already in the
ledger, the other two share a fresh id. -/
def w8videos : List MediaItem :=
  [{ id := some "oldid000001", title := some "old" },
   { id := some "newid000002", title := some "first copy" },
   { id := some "newid000002", title := some "second copy" }]

/-- Acquisition oracle for the C8/C9 witnesses: every download succeeds. -/
def w8dl : Nat → Option String := fun _ => some "out/v [newid000002].mp4"

/-- Witness for C8. -/
theorem driver_dedup_spec_witness :
    LedgerSpec ["oldid000001"] w8dl w8videos "oldid000001" :=
  driver_dedup_spec ["oldid000001"] w8dl w8videos "oldid000001" (by decide)

/-- C9 conclusion: for an identifier absent from the startup ledger set, the
engine is invoked once per occurrence in the batch, whatever the acquisition
outcomes — in-memory dedup state is never updated during the run. -/
def RepeatInvokeSpec (ids : List String) (dl : Nat → Option String)
    (videos : List MediaItem) (id : String) : Prop :=
  invokeCount (driverEvents ids dl videos 0) id =
    (videos.filter (fun v => effectiveId v = id)).length

theorem invokeCount_fresh (ids : List String) (dl : Nat → Option String)
    (id : String) (hid : ids.contains id = false) :
    ∀ (videos : List MediaItem) (i : Nat),
      invokeCount (driverEvents ids dl videos i) id =
        (videos.filter (fun v => effectiveId v = id)).length := by
  intro videos
  induction videos with
  | nil => intro i; simp [driverEvents, invokeCount]
  | cons v rest ih =>
      intro i
      simp only [driverEvents, List.filter]
      by_cases hveq : effectiveId v = id
      · have hv : ids.contains (effectiveId v) = true → False := by
          intro hc; rw [hveq] at hc; rw [hc] at hid; exact absurd hid (by simp)
        rw [if_neg hv, invokeCount_append]
        rw [ih (i + 1)]
        have hone : invokeCount
            (Event.invoke (effectiveId v) ::
              match dl i with
              | some path =>
                  Event.enqueue path (strEndsWith (strToLower path) ".mp4") ::
                    (if effectiveId v ≠ "<no-id>" then [Event.ledgerAppend (effectiveId v)] else [])
              | none => [Event.errorLog ("Failed: " ++ effectiveId v)]) id = 1 := by
          cases hdl : dl i with
          | some p =>
              by_cases hno : effectiveId v ≠ "<no-id>" <;>
                simp [invokeCount, List.filter, hveq, hno, Event.invoke.injEq]
          | none =>
              simp [invokeCount, List.filter, hveq, Event.invoke.injEq]
        rw [hone]
        simp [hveq, Nat.add_comm]
      · by_cases hv : ids.contains (effectiveId v) = true
        · rw [if_pos hv]
          rw [ih (i + 1)]
          simp [hveq]
        · rw [if_neg hv, invokeCount_append]
          rw [ih (i + 1)]
          have hzero : invokeCount
              (Event.invoke (effectiveId v) ::
                match dl i with
                | some path =>
                    Event.enqueue path (strEndsWith (strToLower path) ".mp4") ::
                      (if effectiveId v ≠ "<no-id>" then [Event.ledgerAppend (effectiveId v)] else [])
                | none => [Event.errorLog ("Failed: " ++ effectiveId v)]) id = 0 := by
            cases hdl : dl i with
            | some p =>
                by_cases hno : effectiveId v ≠ "<no-id>" <;>
                  simp [invokeCount, List.filter, hveq, hno, Event.invoke.injEq]
            | none =>
                simp [invokeCount, List.filter, hveq, Event.invoke.injEq]
          rw [hzero]
          simp [hveq]

/-- C9: the downloaded-id set is read once before the loop and never updated
in memory, so an identifier absent from the startup ledger is handed to the
acquisition engine once per occurrence in the batch, even after an earlier
occurrence succeeded. -/
theorem driver_repeat_invoke (ids : List String) (dl : Nat → Option String)
    (videos : List MediaItem) (id : String) (hid : ids.contains id = false) :
    RepeatInvokeSpec ids dl videos id :=
  invokeCount_fresh ids dl id hid videos 0

/-- Witness for C9: the fresh id occurs twice, the first download succeeds,
and the engine is still invoked for the second occurrence (count 2). -/
theorem driver_repeat_invoke_witness :
    RepeatInvokeSpec ["oldid000001"] w8dl w8videos "newid000002" :=
  driver_repeat_invoke ["oldid000001"] w8dl w8videos "newid000002" (by decide)

/-! ## String and path lemmas -/

theorem toList_append (a b : String) : (a ++ b).toList = a.toList ++ b.toList :=
  String.data_append a b

theorem mk_toList (s : String) : String.mk s.toList = s := by
  cases s; rfl

theorem mk_append (a b : String) : String.mk (a.toList ++ b.toList) = a ++ b := by
  apply String.ext
  rw [String.data_append]
  rfl

theorem afterLastSlash_of_no_slash (n : List Char) (h : '/' ∉ n) :
    afterLastSlash n = n := by
  induction n with
  | nil => rfl
  | cons c rest ih =>
      simp only [List.mem_cons, not_or] at h
      rw [afterLastSlash, if_neg (fun hc => h.1 hc.symm), if_neg h.2]

theorem afterLastSlash_append (d n : List Char) (h : '/' ∉ n) :
    afterLastSlash (d ++ '/' :: n) = n := by
  induction d with
  | nil =>
      rw [List.nil_append, afterLastSlash, if_pos rfl]
      exact afterLastSlash_of_no_slash n h
  | cons a d' ih =>
      rw [List.cons_append, afterLastSlash]
      by_cases ha : a = '/'
      · rw [if_pos ha]; exact ih
      · rw [if_neg ha, if_pos (by simp)]; exact ih

theorem joinPath_toList (dir nm : String) :
    (joinPath dir nm).toList = dir.toList ++ '/' :: nm.toList := by
  rw [joinPath, toList_append, toList_append, List.append_assoc]
  rfl

theorem basename_join (dir nm : String) (h : '/' ∉ nm.toList) :
    basename (joinPath dir nm) = nm := by
  rw [basename, joinPath_toList, afterLastSlash_append _ _ h, mk_toList]

theorem extDotIdx_no_dot (tail : List Char) (h : '.' ∉ tail) :
    ∀ (i : Nat) (seen : Bool) (best : Option Nat), extDotIdx tail i seen best = best := by
  induction tail with
  | nil => intro i seen best; rfl
  | cons c rest ih =>
      intro i seen best
      simp only [List.mem_cons, not_or] at h
      rw [extDotIdx, if_neg (fun hc => h.1 hc.symm)]
      exact ih h.2 (i + 1) true best

theorem extDotIdx_seen (tail : List Char) (htail : '.' ∉ tail) :
    ∀ (b : List Char) (i : Nat) (best : Option Nat),
      extDotIdx (b ++ '.' :: tail) i true best = some (i + b.length) := by
  intro b
  induction b with
  | nil =>
      intro i best
      rw [List.nil_append, extDotIdx, if_pos rfl]
      rw [extDotIdx_no_dot tail htail]
      simp
  | cons c b' ih =>
      intro i best
      rw [List.cons_append, extDotIdx]
      by_cases hc : c = '.'
      · rw [if_pos hc, ih (i + 1)]
        congr 1
        simp only [List.length_cons]
        omega
      · rw [if_neg hc, ih (i + 1)]
        congr 1
        simp only [List.length_cons]
        omega

theorem extDotIdx_hit (tail : List Char) (htail : '.' ∉ tail) :
    ∀ (b : List Char) (i : Nat) (best : Option Nat), (∃ c ∈ b, c ≠ '.') →
      extDotIdx (b ++ '.' :: tail) i false best = some (i + b.length) := by
  intro b
  induction b with
  | nil => intro i best h; simp at h
  | cons c b' ih =>
      intro i best h
      rw [List.cons_append, extDotIdx]
      by_cases hc : c = '.'
      · rw [if_pos hc]
        obtain ⟨w, hw, hwne⟩ := h
        rcases List.mem_cons.mp hw with rfl | hw'
        · exact absurd hc hwne
        · rw [if_neg Bool.false_ne_true, ih (i + 1) best ⟨w, hw', hwne⟩]
          congr 1
          simp only [List.length_cons]
          omega
      · rw [if_neg hc, extDotIdx_seen tail htail b' (i + 1)]
        congr 1
        simp only [List.length_cons]
        omega

/-- splitext splits a stem-plus-dot-extension name at the extension dot,
provided the stem holds a non-dot character and the extension holds no
further dot. -/
theorem splitext_dotext (stem ext : String) (t : List Char)
    (hstem : ∃ c ∈ stem.toList, c ≠ '.')
    (hext : ext.toList = '.' :: t) (ht : '.' ∉ t) :
    splitext (stem ++ ext) = (stem, ext) := by
  have hl : (stem ++ ext).toList = stem.toList ++ '.' :: t := by
    rw [toList_append, hext]
  rw [splitext, hl, extDotIdx_hit t ht stem.toList 0 none hstem]
  simp only [Nat.zero_add]
  rw [List.take_left' rfl, List.drop_left' rfl, mk_toList, ← hext, mk_toList]

theorem strToLower_append (a b : String) :
    strToLower (a ++ b) = String.mk (a.toList.map Char.toLower ++ b.toList.map Char.toLower) := by
  rw [strToLower, toList_append, List.map_append]

theorem strEndsWith_mp4 (x : String) : strEndsWith (strToLower (x ++ ".mp4")) ".mp4" = true := by
  rw [strEndsWith, strToLower_append]
  have h1 : (".mp4" : String).toList.map Char.toLower = (".mp4" : String).toList := by decide
  rw [h1]
  have h2 : (String.mk (x.toList.map Char.toLower ++ (".mp4" : String).toList)).toList
      = x.toList.map Char.toLower ++ (".mp4" : String).toList := rfl
  rw [h2]
  simp

/-! ## Post-processing worker, src/transcoder.py TranscodeWorker.run -/

/-- Post-processing operation mode. -/
inductive JobMode
  | transcode
  | remux
deriving DecidableEq

/-- A post-processing job (TranscodeJob).  The metadata fields feed only the
external ffmpeg command line, which the model treats as opaque. -/
structure TranscodeJob where
  source_path : String
  output_dir : String
  mode : JobMode
  title : Option String := none
  uploader : Option String := none
  upload_date : Option String := none
  webpage_url : Option String := none
  crf_quality : Nat := 23

/-- Output-directory filesystem state: path to file size in bytes, none when
the path does not exist. -/
def FS : Type := String → Option Nat

/-- Creating or overwriting a file. -/
def fsSet (fs : FS) (p : String) (v : Nat) : FS :=
  fun q => if q = p then some v else fs q

/-- Model of os.remove. -/
def fsRemove (fs : FS) (p : String) : FS :=
  fun q => if q = p then none else fs q

/-- Model of os.path.exists. -/
def fsExists (fs : FS) (p : String) : Bool := (fs p).isSome

/-- Model of os.replace(fromP, toP): the file at fromP is atomically renamed
onto toP. -/
def osReplace (fs : FS) (fromP toP : String) : FS :=
  fun q => if q = toP then fs fromP else if q = fromP then none else fs q

/-- The worker's self-remux test,
`job.mode == "remux" and job.source_path.lower().endswith(".mp4")`. -/
def selfRemux (job : TranscodeJob) : Bool :=
  decide (job.mode = JobMode.remux) && strEndsWith (strToLower job.source_path) ".mp4"

/-- The destination path the worker computes: a temporary sibling
`base.tmp.mp4` in the self-remux case, else `base.mp4`. -/
def destPath (job : TranscodeJob) : String :=
  let base := (splitext (basename job.source_path)).1
  if selfRemux job then joinPath job.output_dir (base ++ ".tmp.mp4")
  else joinPath job.output_dir (base ++ ".mp4")

/-- What the ffmpeg subprocess run leaves behind: the size written at the
destination (none when it wrote nothing) and its exit code. -/
structure SubRun where
  output : Option Nat
  code : Int

/-- Filesystem after the ffmpeg subprocess has run. -/
def postEncodeFs (job : TranscodeJob) (fs0 : FS) (sub : SubRun) : FS :=
  match sub.output with
  | some c => fsSet fs0 (destPath job) c
  | none => fs0

/-- `success = code == 0 and os.path.exists(dst)`. -/
def jobSuccess (job : TranscodeJob) (fs0 : FS) (sub : SubRun) : Bool :=
  decide (sub.code = 0) && fsExists (postEncodeFs job fs0 sub) (destPath job)

/-- Filesystem after the success-only side effects: atomic replace of the
source for a self-remux, else deletion of the now-redundant source. -/
def postSideEffectFs (job : TranscodeJob) (fs0 : FS) (sub : SubRun) : FS :=
  if jobSuccess job fs0 sub then
    (if selfRemux job then osReplace (postEncodeFs job fs0 sub) (destPath job) job.source_path
     else fsRemove (postEncodeFs job fs0 sub) job.source_path)
  else postEncodeFs job fs0 sub

/-- The `dst` variable after the success branch may have rebound it to the
source path. -/
def jobDstFinal (job : TranscodeJob) (fs0 : FS) (sub : SubRun) : String :=
  if jobSuccess job fs0 sub && selfRemux job then job.source_path else destPath job

/-- The adjacent thumbnail path, `os.path.splitext(source)[0] + ".jpg"`. -/
def thumbPath (p : String) : String := (pathSplitext p).1 ++ ".jpg"

/-- Filesystem after the success-only thumbnail cleanup. -/
def finalFs (job : TranscodeJob) (fs0 : FS) (sub : SubRun) : FS :=
  if jobSuccess job fs0 sub && fsExists (postSideEffectFs job fs0 sub) (thumbPath job.source_path)
  then fsRemove (postSideEffectFs job fs0 sub) (thumbPath job.source_path)
  else postSideEffectFs job fs0 sub

/-- The outcome-log line, `f"OK|FAIL: basename(src) -> basename(dst)"`. -/
def jobLogLine (job : TranscodeJob) (fs0 : FS) (sub : SubRun) : String :=
  (if jobSuccess job fs0 sub then "OK" else "FAIL") ++ ": " ++
    basename job.source_path ++ " -> " ++ basename (jobDstFinal job fs0 sub)

/-- Result of the worker's handling of one dequeued job whose body runs to
completion: the filesystem after each step, the success flag, the appended
log line and the final destination. -/
structure JobResult where
  trace : List FS
  fsFinal : FS
  success : Bool
  logLine : String
  dstFinal : String

/-- The worker's per-job body (no exception raised), assembled from the step
functions above in source order. -/
def runJob (job : TranscodeJob) (fs0 : FS) (sub : SubRun) : JobResult :=
  { trace := [fs0, postEncodeFs job fs0 sub, postSideEffectFs job fs0 sub, finalFs job fs0 sub],
    fsFinal := finalFs job fs0 sub,
    success := jobSuccess job fs0 sub,
    logLine := jobLogLine job fs0 sub,
    dstFinal := jobDstFinal job fs0 sub }

theorem strStartsWith_self_append (a b : String) : strStartsWith (a ++ b) a = true := by
  rw [strStartsWith]
  have h : (a ++ b).toList = a.toList ++ b.toList := toList_append a b
  rw [h]
  simp

theorem strStartsWith_OK_of_FAIL (m : String) :
    strStartsWith ("FAIL: " ++ m) "OK: " = false := by
  rw [strStartsWith]
  have h : ("FAIL: " ++ m).toList = 'F' :: 'A' :: 'I' :: 'L' :: ':' :: ' ' :: m.toList :=
    toList_append "FAIL: " m
  rw [h]
  have hc : (('O' : Char) == 'F') = false := by decide
  simp [List.isPrefixOf, hc]

theorem strStartsWith_FAIL_of_OK (m : String) :
    strStartsWith ("OK: " ++ m) "FAIL: " = false := by
  rw [strStartsWith]
  have h : ("OK: " ++ m).toList = 'O' :: 'K' :: ':' :: ' ' :: m.toList :=
    toList_append "OK: " m
  rw [h]
  have hc : (('F' : Char) == 'O') = false := by decide
  simp [List.isPrefixOf, hc]

/-- C6 conclusion: a job is classified as succeeded exactly when the
subprocess exited 0 and the destination exists, and the log line starts with
"OK: " exactly in the success case and with "FAIL: " otherwise. -/
def WorkerOutcomeSpec (job : TranscodeJob) (fs0 : FS) (sub : SubRun) : Prop :=
  ((runJob job fs0 sub).success = true ↔
    (sub.code = 0 ∧ fsExists (postEncodeFs job fs0 sub) (destPath job) = true)) ∧
  strStartsWith (runJob job fs0 sub).logLine "OK: " = (runJob job fs0 sub).success ∧
  strStartsWith (runJob job fs0 sub).logLine "FAIL: " = !(runJob job fs0 sub).success

/-- C6: for every job, directory state and subprocess outcome, success is
zero-exit AND destination-exists, and the outcome log records OK exactly on
success and FAIL otherwise. -/
theorem worker_outcome (job : TranscodeJob) (fs0 : FS) (sub : SubRun) :
    WorkerOutcomeSpec job fs0 sub := by
  refine ⟨?_, ?_, ?_⟩
  · simp [runJob, jobSuccess, Bool.and_eq_true, decide_eq_true_iff]
  · rw [runJob]
    simp only
    rw [jobLogLine]
    cases hs : jobSuccess job fs0 sub
    · rw [if_neg (by simp [hs])]
      have hassoc : ("FAIL" : String) ++ ": " ++ basename job.source_path ++ " -> " ++
          basename (jobDstFinal job fs0 sub) =
          "FAIL: " ++ (basename job.source_path ++ " -> " ++ basename (jobDstFinal job fs0 sub)) := by
        rw [show ("FAIL" : String) ++ ": " = "FAIL: " from by decide] at *
        simp [String.append_assoc]
      rw [hassoc, strStartsWith_OK_of_FAIL]
    · rw [if_pos (by simp [hs])]
      have hassoc : ("OK" : String) ++ ": " ++ basename job.source_path ++ " -> " ++
          basename (jobDstFinal job fs0 sub) =
          "OK: " ++ (basename job.source_path ++ " -> " ++ basename (jobDstFinal job fs0 sub)) := by
        rw [show ("OK" : String) ++ ": " = "OK: " from by decide] at *
        simp [String.append_assoc]
      rw [hassoc, strStartsWith_self_append]
  · rw [runJob]
    simp only
    rw [jobLogLine]
    cases hs : jobSuccess job fs0 sub
    · rw [if_neg (by simp [hs])]
      have hassoc : ("FAIL" : String) ++ ": " ++ basename job.source_path ++ " -> " ++
          basename (jobDstFinal job fs0 sub) =
          "FAIL: " ++ (basename job.source_path ++ " -> " ++ basename (jobDstFinal job fs0 sub)) := by
        rw [show ("FAIL" : String) ++ ": " = "FAIL: " from by decide] at *
        simp [String.append_assoc]
      rw [hassoc, strStartsWith_self_append]
      rfl
    · rw [if_pos (by simp [hs])]
      have hassoc : ("OK" : String) ++ ": " ++ basename job.source_path ++ " -> " ++
          basename (jobDstFinal job fs0 sub) =
          "OK: " ++ (basename job.source_path ++ " -> " ++ basename (jobDstFinal job fs0 sub)) := by
        rw [show ("OK" : String) ++ ": " = "OK: " from by decide] at *
        simp [String.append_assoc]
      rw [hassoc, strStartsWith_FAIL_of_OK]
      rfl

/-! ## C2: queue completion accounting of TranscodeWorker.run and
transcode_queue.join() in main -/

/-- Outcome of the worker's try-block body for one dequeued job: either the
subprocess handling completes, or an exception escapes the body and is
caught by the `except` clause. -/
inductive BodyOutcome
  | completes (sub : SubRun)
  | raises (msg : String)

/-- A dequeued work item: the job, the directory state when it is processed,
and the body outcome. -/
structure WorkItem where
  job : TranscodeJob
  fs : FS
  outcome : BodyOutcome

/-- Effects of one worker iteration: the log lines appended and the number of
task_done calls.  task_done sits in a `finally`, so the normal path, the
failed-subprocess path and the exception path each perform it exactly once
(the exception path first appends the ERROR line). -/
def workerIteration (w : WorkItem) : List String × Nat :=
  match w.outcome with
  | .completes sub => ([(runJob w.job w.fs sub).logLine], 1)
  | .raises m => (["ERROR: " ++ w.job.source_path ++ " | " ++ m], 1)

/-- Total task_done calls after the worker has drained the given items. -/
def totalTaskDone (items : List WorkItem) : Nat :=
  (items.map (fun w => (workerIteration w).2)).sum

/-- Unfinished-task counter of queue.Queue: enqueues minus task_done calls;
queue.join() returns exactly when it reaches zero. -/
def unfinishedTasks (puts dones : Nat) : Nat := puts - dones

/-- C2 conclusion: every dequeued job is marked complete exactly once, so
after all enqueued jobs are processed the queue's unfinished counter is zero
and the final join returns. -/
def DrainSpec (items : List WorkItem) : Prop :=
  totalTaskDone items = items.length ∧
  unfinishedTasks items.length (totalTaskDone items) = 0

theorem workerIteration_taskDone (w : WorkItem) : (workerIteration w).2 = 1 := by
  cases h : w.outcome <;> simp [workerIteration, h]

/-- C2: for every job list, directory states and body outcomes (success,
subprocess failure, or exception), the worker calls task_done exactly once
per job, so a drain requested after all jobs are enqueued returns. -/
theorem worker_drain (items : List WorkItem) : DrainSpec items := by
  have htot : totalTaskDone items = items.length := by
    rw [totalTaskDone]
    induction items with
    | nil => rfl
    | cons w rest ih =>
        rw [List.map_cons, List.sum_cons, ih, workerIteration_taskDone, List.length_cons]
        omega
  exact ⟨htot, by rw [unfinishedTasks, htot]; omega⟩

/-! ## C3: self-remux uses a temporary sibling and replaces only on success -/

theorem pathSplitext_join (dir nm : String) (h : '/' ∉ nm.toList) :
    pathSplitext (joinPath dir nm) = ((dir ++ "/") ++ (splitext nm).1, (splitext nm).2) := by
  have hl : (joinPath dir nm).toList = dir.toList ++ '/' :: nm.toList := joinPath_toList dir nm
  simp only [pathSplitext, hl, afterLastSlash_append _ _ h, mk_toList]
  have hlen : (dir.toList ++ '/' :: nm.toList).length - nm.toList.length
      = dir.toList.length + 1 := by
    simp only [List.length_append, List.length_cons]
    omega
  rw [hlen]
  have htake : (dir.toList ++ '/' :: nm.toList).take (dir.toList.length + 1)
      = dir.toList ++ ['/'] := by
    rw [List.take_append_eq_append_take, List.take_of_length_le (by omega)]
    congr 1
    simp
  rw [htake]
  have hmk : String.mk (dir.toList ++ ['/']) = dir ++ "/" := mk_append dir "/"
  rw [hmk]

/-- C3 conclusion: the worker computes a temporary sibling destination
distinct from the source, the source stays present and non-empty at every
step of the job (in particular between encoding and replacement), the source
is untouched unless success is confirmed, and on confirmed success the
source holds exactly the ffmpeg output. -/
def RemuxSelfSpec (dir base : String) (fs0 : FS) (sub : SubRun)
    (job : TranscodeJob) : Prop :=
  destPath job = joinPath dir (base ++ ".tmp.mp4") ∧
  destPath job ≠ job.source_path ∧
  (∀ fs ∈ (runJob job fs0 sub).trace, ∃ m, fs job.source_path = some m ∧ 0 < m) ∧
  ((runJob job fs0 sub).success = false →
    (runJob job fs0 sub).fsFinal job.source_path = fs0 job.source_path) ∧
  ((runJob job fs0 sub).success = true →
    (runJob job fs0 sub).fsFinal job.source_path = sub.output)

/-- C3: a remux job whose natural destination coincides with its source
writes the encode to a `.tmp.mp4` sibling and replaces the source atomically
only after confirmed success, so the source path never goes missing or
zero-length, even between encoding and replacement. -/
theorem remux_self_replace (dir base : String) (fs0 : FS) (sub : SubRun)
    (job : TranscodeJob)
    (hmode : job.mode = JobMode.remux)
    (hsrc : job.source_path = joinPath dir (base ++ ".mp4"))
    (hdir : job.output_dir = dir)
    (hslash : '/' ∉ base.toList)
    (hdot : ∃ c ∈ base.toList, c ≠ '.')
    (hinit : ∃ n, fs0 job.source_path = some n ∧ 0 < n)
    (hout : ∀ c, sub.output = some c → 0 < c)
    (hzero : sub.code = 0 → sub.output.isSome = true) :
    RemuxSelfSpec dir base fs0 sub job := by
  have hnmslash : '/' ∉ (base ++ ".mp4").toList := by
    rw [toList_append]
    simp only [List.mem_append, not_or]
    exact ⟨hslash, by decide⟩
  have hbn : basename job.source_path = base ++ ".mp4" := by
    rw [hsrc]; exact basename_join dir _ hnmslash
  have hse : splitext (base ++ ".mp4") = (base, ".mp4") :=
    splitext_dotext base ".mp4" ['m', 'p', '4'] hdot rfl (by decide)
  have hends : strEndsWith (strToLower job.source_path) ".mp4" = true := by
    rw [hsrc]
    have hform : joinPath dir (base ++ ".mp4") = (dir ++ "/" ++ base) ++ ".mp4" :=
      (String.append_assoc (dir ++ "/") base ".mp4").symm
    rw [hform]
    exact strEndsWith_mp4 _
  have hsr : selfRemux job = true := by
    simp [selfRemux, hmode, hends]
  have hdst : destPath job = joinPath dir (base ++ ".tmp.mp4") := by
    simp [destPath, hbn, hse, hsr, hdir]
  have hne_dst : destPath job ≠ job.source_path := by
    rw [hdst, hsrc]
    intro h
    have h2 := congrArg String.length h
    simp only [joinPath, String.length_append] at h2
    have e1 : (".tmp.mp4" : String).length = 8 := rfl
    have e2 : (".mp4" : String).length = 4 := rfl
    rw [e1, e2] at h2
    omega
  have hthumb : thumbPath job.source_path = (dir ++ "/") ++ base ++ ".jpg" := by
    rw [thumbPath, hsrc, pathSplitext_join dir _ hnmslash, hse]
  have hthumb_ne : thumbPath job.source_path ≠ job.source_path := by
    rw [hthumb, hsrc]
    intro h
    have h2 := congrArg String.data h
    simp only [String.data_append, joinPath, List.append_assoc,
      List.append_cancel_left_eq] at h2
    exact absurd h2 (by decide)
  have hfs1 : postEncodeFs job fs0 sub job.source_path = fs0 job.source_path := by
    cases ho : sub.output with
    | none => rw [postEncodeFs, ho]
    | some c =>
        simp only [postEncodeFs, ho, fsSet]
        rw [if_neg (fun h => hne_dst h.symm)]
  have hfs1dst : jobSuccess job fs0 sub = true →
      ∃ c, sub.output = some c ∧ postEncodeFs job fs0 sub (destPath job) = some c ∧ 0 < c := by
    intro hsucc
    simp only [jobSuccess, Bool.and_eq_true, decide_eq_true_eq] at hsucc
    obtain ⟨hcode, _hex⟩ := hsucc
    have hsome := hzero hcode
    cases ho : sub.output with
    | none => rw [ho] at hsome; simp at hsome
    | some c =>
        refine ⟨c, rfl, ?_, hout c ho⟩
        simp [postEncodeFs, ho, fsSet]
  have hfs2 : postSideEffectFs job fs0 sub job.source_path =
      (if jobSuccess job fs0 sub = true then postEncodeFs job fs0 sub (destPath job)
       else fs0 job.source_path) := by
    rw [postSideEffectFs]
    cases hsucc : jobSuccess job fs0 sub
    · rw [if_neg Bool.false_ne_true]
      exact hfs1
    · rw [if_pos rfl, if_pos hsr]
      simp [osReplace]
  have hfs3 : finalFs job fs0 sub job.source_path =
      postSideEffectFs job fs0 sub job.source_path := by
    rw [finalFs]
    by_cases hc : (jobSuccess job fs0 sub &&
        fsExists (postSideEffectFs job fs0 sub) (thumbPath job.source_path)) = true
    · rw [if_pos hc]
      simp only [fsRemove]
      rw [if_neg (fun h => hthumb_ne h.symm)]
    · rw [if_neg hc]
  obtain ⟨n, hn, hnpos⟩ := hinit
  have hsrcAt : ∀ b : Bool, jobSuccess job fs0 sub = b →
      ∃ m, postSideEffectFs job fs0 sub job.source_path = some m ∧ 0 < m := by
    intro b hb
    cases b
    · rw [hfs2, if_neg (by rw [hb]; exact Bool.false_ne_true)]
      exact ⟨n, hn, hnpos⟩
    · obtain ⟨c, _hc, hcd, hcpos⟩ := hfs1dst hb
      rw [hfs2, if_pos hb, hcd]
      exact ⟨c, rfl, hcpos⟩
  refine ⟨hdst, hne_dst, ?_, ?_, ?_⟩
  · intro fs hfs
    simp only [runJob, List.mem_cons, List.not_mem_nil, or_false] at hfs
    rcases hfs with rfl | rfl | rfl | rfl
    · exact ⟨n, hn, hnpos⟩
    · rw [hfs1]; exact ⟨n, hn, hnpos⟩
    · exact hsrcAt _ rfl
    · rw [hfs3]; exact hsrcAt _ rfl
  · intro hfail
    simp only [runJob] at hfail ⊢
    rw [hfs3, hfs2, if_neg (by rw [hfail]; exact Bool.false_ne_true)]
  · intro hsucc
    simp only [runJob] at hsucc ⊢
    obtain ⟨c, hc, hcd, _⟩ := hfs1dst hsucc
    rw [hfs3, hfs2, if_pos hsucc, hcd, hc]

/-- Self-remux job for the C3 witness. -/
def w3job : TranscodeJob :=
  { source_path := "out/clip.mp4", output_dir := "out", mode := JobMode.remux }

/-- Initial directory state for the C3 witness: only the source exists. -/
def w3fs : FS := fun q => if q = "out/clip.mp4" then some 100 else none

/-- Subprocess outcome for the C3 witness: exit 0, 80 bytes written. -/
def w3sub : SubRun := { output := some 80, code := 0 }

/-- Witness for C3 on a concrete self-remux job. -/
theorem remux_self_replace_witness : RemuxSelfSpec "out" "clip" w3fs w3sub w3job :=
  remux_self_replace "out" "clip" w3fs w3sub w3job rfl (by decide) rfl (by decide)
    (by decide) ⟨100, by decide, by decide⟩
    (fun c hc => by simp [w3sub] at hc; omega) (fun _ => rfl)

/-! ## Progress tracker, src/transcoder.py ProgressBar -/

/-- Python regex whitespace class over the characters ffmpeg emits. -/
def isPySpace (c : Char) : Bool :=
  c = ' ' || c = '\t' || c = '\n' || c = '\r' || c = Char.ofNat 11 || c = Char.ofNat 12

/-- Numeric value of a digit run. -/
def natOfDigits (ds : List Char) : Nat :=
  ds.foldl (fun acc c => acc * 10 + (c.toNat - '0'.toNat)) 0

/-- Match `key\s*(\d+)` anchored at the head of the character list. -/
def matchKeyNat (key l : List Char) : Option Nat :=
  if key.isPrefixOf l then
    let rest := (l.drop key.length).dropWhile isPySpace
    let digits := rest.takeWhile Char.isDigit
    if digits.isEmpty then none else some (natOfDigits digits)
  else none

/-- re.search for `key\s*(\d+)`: leftmost match over the line. -/
def searchNat (key : List Char) : List Char → Option Nat
  | [] => matchKeyNat key []
  | c :: rest =>
      match matchKeyNat key (c :: rest) with
      | some n => some n
      | none => searchNat key rest

/-- Match `speed=\s*([\d.]+)x` anchored at the head: the character class
excludes `x`, so the greedy group is exactly the maximal digit-or-dot run,
which must be followed by `x`. -/
def matchSpeedHead (l : List Char) : Option (List Char) :=
  if ("speed=".toList).isPrefixOf l then
    let rest := (l.drop ("speed=".toList).length).dropWhile isPySpace
    let run := rest.takeWhile (fun c => c.isDigit || c = '.')
    if run.isEmpty then none
    else
      match rest.drop run.length with
      | 'x' :: _ => some run
      | _ => none
  else none

/-- re.search for the speed pattern. -/
def searchSpeed : List Char → Option (List Char)
  | [] => matchSpeedHead []
  | c :: rest =>
      match matchSpeedHead (c :: rest) with
      | some run => some run
      | none => searchSpeed rest

/-- Match `time=(\d{2}):(\d{2}):(\d{2})` anchored at the head. -/
def matchTimeHead (l : List Char) : Option (Nat × Nat × Nat) :=
  if ("time=".toList).isPrefixOf l then
    match l.drop ("time=".toList).length with
    | h1 :: h2 :: c1 :: m1 :: m2 :: c2 :: s1 :: s2 :: _ =>
        if h1.isDigit && h2.isDigit && (c1 == ':') && m1.isDigit && m2.isDigit &&
            (c2 == ':') && s1.isDigit && s2.isDigit then
          some (natOfDigits [h1, h2], natOfDigits [m1, m2], natOfDigits [s1, s2])
        else none
    | _ => none
  else none

/-- re.search for the time pattern. -/
def searchTime : List Char → Option (Nat × Nat × Nat)
  | [] => matchTimeHead []
  | c :: rest =>
      match matchTimeHead (c :: rest) with
      | some t => some t
      | none => searchTime rest

/-- Value of Python float() on a digits-dot-digits run; a run float() would
reject (a second dot, or a lone dot) yields none, matching the only inputs
the tracker ever receives from well-formed ffmpeg lines. -/
def ratOfDecimal (run : List Char) : Option Rat :=
  let intPart := run.takeWhile Char.isDigit
  let rest := run.drop intPart.length
  match rest with
  | [] => if intPart.isEmpty then none else some ((natOfDigits intPart : Rat))
  | '.' :: frac =>
      if frac.all Char.isDigit && !(intPart.isEmpty && frac.isEmpty) then
        some ((natOfDigits intPart : Rat) + (natOfDigits frac : Rat) / ((10 : Rat) ^ frac.length))
      else none
  | _ => none

/-- ProgressBar state: total frames from the probe, then the fields updated
from ffmpeg lines (the wall-clock fields start_time and last_update are
outside the model). -/
structure PB where
  total_frames : Nat
  current_frame : Nat
  fps : Nat
  speed : Rat
  eta : Rat

/-- ProgressBar.__init__ with a given total frame count. -/
def pbInit (total : Nat) : PB :=
  { total_frames := total, current_frame := 0, fps := 0, speed := 0, eta := 0 }

/-- ProgressBar.update_from_ffmpeg_line: each field is updated only when its
pattern matches; when a time marker is present, fps is positive and the total
is positive, eta becomes remaining-frames over fps. -/
def update_from_ffmpeg_line (st : PB) (line : String) : PB :=
  let l := line.toList
  let st1 :=
    match searchNat "frame=".toList l with
    | some n => { st with current_frame := n }
    | none => st
  let st2 :=
    match searchNat "fps=".toList l with
    | some n => { st1 with fps := n }
    | none => st1
  let st3 :=
    match searchSpeed l with
    | some run =>
        match ratOfDecimal run with
        | some q => { st2 with speed := q }
        | none => st2
    | none => st2
  match searchTime l with
  | some _ =>
      if st3.fps > 0 then
        (if st3.total_frames > 0 then
          { st3 with
            eta := ((((st3.total_frames : Int) - (st3.current_frame : Int)) : Int) : Rat) /
              ((st3.fps : Nat) : Rat) }
         else st3)
      else st3
  | none => st3

/-- First ffmpeg status line of the C5 scenario. -/
def line1 : String := "frame=100 fps=25 speed=1.2x"

/-- Second ffmpeg status line of the C5 scenario. -/
def line2 : String := "frame=250 fps=30 speed=1.5x time=00:00:10"

/-- Tracker state after feeding the two C5 lines from a fresh start. -/
def twoLineState (total : Nat) : PB :=
  update_from_ffmpeg_line (update_from_ffmpeg_line (pbInit total) line1) line2

theorem update_line1 (total : Nat) :
    update_from_ffmpeg_line (pbInit total) line1 = PB.mk total 100 25 (6/5) 0 := by
  have hfr : searchNat "frame=".toList line1.toList = some 100 := rfl
  have hfp : searchNat "fps=".toList line1.toList = some 25 := rfl
  have hsp : searchSpeed line1.toList = some ['1', '.', '2'] := rfl
  have hti : searchTime line1.toList = none := rfl
  have hrat : ratOfDecimal ['1', '.', '2'] = some (6/5) := by
    rw [show ratOfDecimal ['1', '.', '2'] =
      some ((1 : Rat) + (2 : Rat) / ((10 : Rat) ^ (1 : Nat))) from rfl]
    norm_num
  simp only [update_from_ffmpeg_line, hfr, hfp, hsp, hti, hrat]
  rfl

theorem update_line2 (total : Nat) (htot : 0 < total) :
    update_from_ffmpeg_line (PB.mk total 100 25 (6/5) 0) line2 =
      PB.mk total 250 30 (3/2)
        ((((total : Int) - ((250 : Nat) : Int)) : Rat) / (((30 : Nat) : Nat) : Rat)) := by
  have hfr : searchNat "frame=".toList line2.toList = some 250 := rfl
  have hfp : searchNat "fps=".toList line2.toList = some 30 := rfl
  have hsp : searchSpeed line2.toList = some ['1', '.', '5'] := rfl
  have hti : searchTime line2.toList = some (0, 0, 10) := rfl
  have hrat : ratOfDecimal ['1', '.', '5'] = some (3/2) := by
    rw [show ratOfDecimal ['1', '.', '5'] =
      some ((1 : Rat) + (5 : Rat) / ((10 : Rat) ^ (1 : Nat))) from rfl]
    norm_num
  simp only [update_from_ffmpeg_line, hfr, hfp, hsp, hti, hrat]
  rw [if_pos (by norm_num), if_pos (by exact htot)]
  congr 1
  push_cast
  ring

/-- C5 amended conclusion: after the two lines the current frame is 250, fps
is 30, speed is 1.5, and eta equals (total - 250)/30 frames-seconds, which is
non-negative. -/
def TrackerSpec (total : Nat) : Prop :=
  (twoLineState total).current_frame = 250 ∧
  (twoLineState total).fps = 30 ∧
  (twoLineState total).speed = 3/2 ∧
  (twoLineState total).eta = (((total : Int) - 250 : Int) : Rat) / 30 ∧
  0 ≤ (twoLineState total).eta

/-- C5 (amended): for every tracker started with a total frame count of at
least the observed frame 250, the two lines leave frame 250, fps 30, speed
1.5 and a non-negative eta equal to remaining frames over fps. -/
theorem tracker_two_lines (total : Nat) (h : 250 ≤ total) : TrackerSpec total := by
  have htot : 0 < total := by omega
  have hst : twoLineState total =
      PB.mk total 250 30 (3/2)
        ((((total : Int) - ((250 : Nat) : Int)) : Rat) / (((30 : Nat) : Nat) : Rat)) := by
    rw [twoLineState, update_line1, update_line2 total htot]
  rw [TrackerSpec, hst]
  refine ⟨rfl, rfl, rfl, ?_, ?_⟩
  · norm_num
  · have hnum : (0 : Rat) ≤ (((total : Int) - ((250 : Nat) : Int)) : Rat) := by
      have : ((250 : Nat) : Int) ≤ (total : Int) := by exact_mod_cast h
      have h2 : (0 : Int) ≤ (total : Int) - ((250 : Nat) : Int) := by omega
      exact_mod_cast h2
    have hden : (0 : Rat) ≤ (((30 : Nat) : Nat) : Rat) := by norm_num
    exact div_nonneg hnum hden

/-- Witness for C5 (amended) at total 300. -/
theorem tracker_two_lines_witness : TrackerSpec 300 := tracker_two_lines 300 (by norm_num)

/-- Counterexample to C5 as stated: a tracker started with the known positive
total frame count 100 ends the two lines with a negative eta, since the probe
estimate is below the observed frame count. -/
theorem tracker_two_lines_counterexample :
    0 < (twoLineState 100).total_frames ∧ (twoLineState 100).eta < 0 := by
  have hst : twoLineState 100 =
      PB.mk 100 250 30 (3/2)
        ((((100 : Nat) : Int) - ((250 : Nat) : Int) : Rat) / (((30 : Nat) : Nat) : Rat)) := by
    rw [twoLineState, update_line1, update_line2 100 (by norm_num)]
  rw [hst]
  refine ⟨by norm_num, ?_⟩
  norm_num

/-! ## C10: rendered progress is capped at 100% -/

/-- Structured content of ProgressBar.render: the plain readout when the
total is unknown, else the bar with its progress fraction, filled cell
count, counters and eta-known flag. -/
inductive RenderOut
  | plain (frame fps : Nat) (speed : Rat)
  | bar (progress : Rat) (filled : Nat) (frame total fps : Nat) (speed : Rat) (etaKnown : Bool)

/-- ProgressBar.render: `progress = min(1.0, current/total)` when the total
is positive; `int(30 * progress)` truncation is floor since progress is
non-negative. -/
def render (st : PB) : RenderOut :=
  if st.total_frames = 0 then RenderOut.plain st.current_frame st.fps st.speed
  else
    let progress : Rat :=
      if st.total_frames > 0 then
        min 1 ((st.current_frame : Rat) / (st.total_frames : Rat))
      else 0
    let filled : Nat := (30 * progress).floor.toNat
    RenderOut.bar progress filled st.current_frame st.total_frames st.fps st.speed
      (decide (st.eta > 0))

/-- The progress fraction carried by a rendered line. -/
def renderProgress : RenderOut → Rat
  | .plain _ _ _ => 0
  | .bar p _ _ _ _ _ _ => p

/-- C10 conclusion: with a positive total the rendered fraction is exactly
min(1, current/total), hence at most 1 and at most 100 percent. -/
def RenderCapSpec (st : PB) : Prop :=
  renderProgress (render st) = min 1 ((st.current_frame : Rat) / (st.total_frames : Rat)) ∧
  renderProgress (render st) ≤ 1 ∧
  renderProgress (render st) * 100 ≤ 100

/-- C10: for every tracker state with a positive total frame count the
rendered progress fraction and percentage are capped at 100%, even when the
current frame exceeds the probed total. -/
theorem render_progress_capped (st : PB) (h : 0 < st.total_frames) : RenderCapSpec st := by
  have hne : ¬ st.total_frames = 0 := by omega
  have h1 : renderProgress (render st) =
      min 1 ((st.current_frame : Rat) / (st.total_frames : Rat)) := by
    rw [render, if_neg hne]
    simp only [if_pos h]
    rfl
  have hle : renderProgress (render st) ≤ 1 := by
    rw [h1]; exact min_le_left 1 _
  refine ⟨h1, hle, ?_⟩
  nlinarith [hle]

/-- Witness for C10: probe said 100 frames but ffmpeg reached frame 250; the
fraction renders as exactly 1. -/
theorem render_progress_capped_witness : RenderCapSpec (PB.mk 100 250 30 1 0) :=
  render_progress_capped (PB.mk 100 250 30 1 0) (by norm_num)

/-! ## Reconciliation scan, src/main.py backfill_existing_media -/

/-- One immediate entry of the output directory for the scan. -/
structure DirEntry where
  name : String
  isFile : Bool
deriving DecidableEq

/-- Outcome of the ffprobe metadata probe on a file: ok is false when the
subprocess call raised (timeout etc.), else its exit code and stdout. -/
structure ProbeOut where
  ok : Bool
  returncode : Int
  stdout : String

/-- The needs_processing decision: default true; false only when the probe
ran, exited 0 with non-empty stdout, and the stdout contains both a quoted
title and a quoted artist key. -/
def probeNeedsProcessing (p : ProbeOut) : Bool :=
  if p.ok then
    if decide (p.returncode = 0) && decide (p.stdout ≠ "") then
      if containsSub p.stdout "\"title\"" && containsSub p.stdout "\"artist\"" then false
      else true
    else true
  else true

/-- The first backfill loop: partial artifacts (regular files ending in
.part or .ytdl) are deleted; os.remove on a directory raises and is
swallowed, so non-files stay. -/
def removePartials (entries : List DirEntry) : List DirEntry :=
  entries.filter
    (fun e => !(e.isFile && (strEndsWith e.name ".part" || strEndsWith e.name ".ytdl")))

/-- A queued scan job: full source path and operation mode.  The metadata
fields of the queued TranscodeJob come from a best-effort id lookup and do
not affect which jobs are queued. -/
structure ScanJob where
  source : String
  mode : JobMode
deriving DecidableEq

/-- Jobs the scan loop queues for one remaining entry: one transcode per
regular .webm file; one remux per regular .mp4 file with an adjacent
same-basename .jpg whose probe says it needs processing; nothing else. -/
def backfillEntryJobs (dir : String) (remaining : List DirEntry)
    (probe : String → ProbeOut) (e : DirEntry) : List ScanJob :=
  if !e.isFile then []
  else
    let pr := splitext e.name
    if strToLower pr.2 = ".webm" then [⟨joinPath dir e.name, JobMode.transcode⟩]
    else if strToLower pr.2 = ".mp4" then
      (if remaining.any (fun t => decide (t.name = pr.1 ++ ".jpg")) then
        (if probeNeedsProcessing (probe (joinPath dir e.name)) then
          [⟨joinPath dir e.name, JobMode.remux⟩]
         else [])
       else [])
    else []

/-- backfill_existing_media: remove partials, then scan the remaining
entries in order. -/
def backfillJobs (dir : String) (entries : List DirEntry)
    (probe : String → ProbeOut) : List ScanJob :=
  (removePartials entries).flatMap (backfillEntryJobs dir (removePartials entries) probe)

/-- Number of queued jobs whose source is the given path. -/
def countSrc (jobs : List ScanJob) (src : String) : Nat :=
  (jobs.filter (fun j => decide (j.source = src))).length

/-- Number of queued jobs with the given source and mode. -/
def countJob (jobs : List ScanJob) (src : String) (m : JobMode) : Nat :=
  (jobs.filter (fun j => decide (j.source = src ∧ j.mode = m))).length

theorem splitext_append (s : String) : (splitext s).1 ++ (splitext s).2 = s := by
  rw [splitext]
  cases h : extDotIdx s.toList 0 false none with
  | none => simp
  | some i =>
      apply String.ext
      rw [String.data_append]
      show s.toList.take i ++ s.toList.drop i = s.data
      rw [List.take_append_drop]
      rfl

theorem ext_isSuffix (s : String) : (splitext s).2.toList <:+ s.toList :=
  ⟨(splitext s).1.toList, by rw [← toList_append, splitext_append]⟩

theorem suffix_eq_of_length {l s1 s2 : List Char} (h1 : s1 <:+ l) (h2 : s2 <:+ l)
    (hlen : s1.length = s2.length) : s1 = s2 := by
  obtain ⟨t1, ht1⟩ := h1
  obtain ⟨t2, ht2⟩ := h2
  have hd1 : l.drop t1.length = s1 := by rw [← ht1]; exact List.drop_left t1 s1
  have hd2 : l.drop t2.length = s2 := by rw [← ht2]; exact List.drop_left t2 s2
  have hteq : t1.length = t2.length := by
    have e1 := congrArg List.length ht1
    have e2 := congrArg List.length ht2
    simp only [List.length_append] at e1 e2
    omega
  rw [← hd1, ← hd2, hteq]

theorem strToLower_toList (s : String) : (strToLower s).toList = s.toList.map Char.toLower := rfl

/-- A name with a length-4 suffix other than "part" and "ytdl" does not end
in .part or .ytdl. -/
theorem not_partial_of_suffix4 (nm : String) (s4 : List Char) (h4 : s4.length = 4)
    (hsuf : s4 <:+ nm.toList) (hp : s4 ≠ ['p', 'a', 'r', 't'])
    (hy : s4 ≠ ['y', 't', 'd', 'l']) :
    strEndsWith nm ".part" = false ∧ strEndsWith nm ".ytdl" = false := by
  constructor
  · cases hv : strEndsWith nm ".part"
    · rfl
    · rw [strEndsWith] at hv
      have hs : (".part" : String).toList <:+ nm.toList := by
        have := List.isSuffixOf_iff_suffix.mp hv
        exact this
      have hs4 : (['p', 'a', 'r', 't'] : List Char) <:+ nm.toList :=
        List.IsSuffix.trans ⟨['.'], rfl⟩ hs
      exact absurd (suffix_eq_of_length hsuf hs4 (by rw [h4]; rfl)) hp
  · cases hv : strEndsWith nm ".ytdl"
    · rfl
    · rw [strEndsWith] at hv
      have hs : (".ytdl" : String).toList <:+ nm.toList := by
        have := List.isSuffixOf_iff_suffix.mp hv
        exact this
      have hs4 : (['y', 't', 'd', 'l'] : List Char) <:+ nm.toList :=
        List.IsSuffix.trans ⟨['.'], rfl⟩ hs
      exact absurd (suffix_eq_of_length hsuf hs4 (by rw [h4]; rfl)) hy

/-- A name with a length-5 suffix other than ".part" and ".ytdl" does not
end in .part or .ytdl. -/
theorem not_partial_of_suffix5 (nm : String) (s5 : List Char) (h5 : s5.length = 5)
    (hsuf : s5 <:+ nm.toList) (hp : s5 ≠ ['.', 'p', 'a', 'r', 't'])
    (hy : s5 ≠ ['.', 'y', 't', 'd', 'l']) :
    strEndsWith nm ".part" = false ∧ strEndsWith nm ".ytdl" = false := by
  constructor
  · cases hv : strEndsWith nm ".part"
    · rfl
    · rw [strEndsWith] at hv
      have hs : (".part" : String).toList <:+ nm.toList := List.isSuffixOf_iff_suffix.mp hv
      exact absurd (suffix_eq_of_length hsuf hs (by rw [h5]; rfl)) hp
  · cases hv : strEndsWith nm ".ytdl"
    · rfl
    · rw [strEndsWith] at hv
      have hs : (".ytdl" : String).toList <:+ nm.toList := List.isSuffixOf_iff_suffix.mp hv
      exact absurd (suffix_eq_of_length hsuf hs (by rw [h5]; rfl)) hy

theorem joinPath_right_inj (dir : String) : Function.Injective (joinPath dir) := by
  intro a b h
  apply String.ext
  have h2 := congrArg String.data h
  simp only [joinPath, String.data_append, List.append_assoc,
    List.append_cancel_left_eq] at h2
  exact h2

theorem backfillEntryJobs_src (dir : String) (rem : List DirEntry)
    (probe : String → ProbeOut) (a : DirEntry) :
    ∀ j ∈ backfillEntryJobs dir rem probe a, j.source = joinPath dir a.name := by
  intro j hj
  simp only [backfillEntryJobs] at hj
  split at hj
  · exact absurd hj (List.not_mem_nil j)
  · split at hj
    · simp only [List.mem_singleton] at hj; subst hj; rfl
    · split at hj
      · split at hj
        · split at hj
          · simp only [List.mem_singleton] at hj; subst hj; rfl
          · exact absurd hj (List.not_mem_nil j)
        · exact absurd hj (List.not_mem_nil j)
      · exact absurd hj (List.not_mem_nil j)

theorem countP_eq_zero (p : ScanJob → Bool) (L : List ScanJob)
    (h : ∀ j ∈ L, p j = false) : (L.filter p).length = 0 := by
  rw [List.length_eq_zero, List.filter_eq_nil_iff]
  intro j hj
  simp [h j hj]

theorem countP_flatMap_unique (dir : String) (f : DirEntry → List ScanJob)
    (hsrc : ∀ a, ∀ j ∈ f a, j.source = joinPath dir a.name)
    (p : ScanJob → Bool) (s : String) (hps : ∀ j, p j = true → j.source = s) :
    ∀ (l : List DirEntry), (l.map DirEntry.name).Nodup → ∀ e ∈ l,
      s = joinPath dir e.name →
      ((l.flatMap f).filter p).length = ((f e).filter p).length := by
  intro l
  induction l with
  | nil => intro _ e he; exact absurd he (List.not_mem_nil e)
  | cons a l' ih =>
      intro hnd e he hs
      simp only [List.map_cons, List.nodup_cons] at hnd
      rw [List.flatMap_cons, List.filter_append, List.length_append]
      rcases List.mem_cons.mp he with rfl | he'
      · have hz : ((l'.flatMap f).filter p).length = 0 := by
          apply countP_eq_zero
          intro j hj
          obtain ⟨a', ha', hja'⟩ := List.mem_flatMap.mp hj
          cases hpj : p j
          · rfl
          · exfalso
            have h1 := hps j hpj
            rw [hsrc a' j hja', hs] at h1
            have h2 : a'.name = e.name := joinPath_right_inj dir h1
            exact hnd.1 (h2 ▸ List.mem_map_of_mem DirEntry.name ha')
        rw [hz, Nat.add_zero]
      · have hz : ((f a).filter p).length = 0 := by
          apply countP_eq_zero
          intro j hj
          cases hpj : p j
          · rfl
          · exfalso
            have h1 := hps j hpj
            rw [hsrc a j hj, hs] at h1
            have h2 : a.name = e.name := joinPath_right_inj dir h1
            exact hnd.1 (h2 ▸ List.mem_map_of_mem DirEntry.name he')
        rw [hz, ih hnd.2 e he' hs, Nat.zero_add]

theorem nodup_removePartials (entries : List DirEntry)
    (h : (entries.map DirEntry.name).Nodup) :
    ((removePartials entries).map DirEntry.name).Nodup :=
  List.Nodup.sublist (List.Sublist.map DirEntry.name (List.filter_sublist entries)) h

theorem mem_removePartials (entries : List DirEntry) (e : DirEntry) (he : e ∈ entries)
    (hp : strEndsWith e.name ".part" = false) (hy : strEndsWith e.name ".ytdl" = false) :
    e ∈ removePartials entries := by
  rw [removePartials, List.mem_filter]
  exact ⟨he, by simp [hp, hy]⟩

theorem backfillEntryJobs_webm (dir : String) (rem : List DirEntry)
    (probe : String → ProbeOut) (e : DirEntry) (hf : e.isFile = true)
    (hext : strToLower (splitext e.name).2 = ".webm") :
    backfillEntryJobs dir rem probe e = [⟨joinPath dir e.name, JobMode.transcode⟩] := by
  rw [backfillEntryJobs, if_neg (by simp [hf])]
  rw [if_pos hext]

theorem backfillEntryJobs_mp4 (dir : String) (rem : List DirEntry)
    (probe : String → ProbeOut) (e : DirEntry) (hf : e.isFile = true)
    (hext : strToLower (splitext e.name).2 = ".mp4")
    (hthumb : rem.any (fun t => decide (t.name = (splitext e.name).1 ++ ".jpg")) = true) :
    backfillEntryJobs dir rem probe e =
      (if probeNeedsProcessing (probe (joinPath dir e.name)) then
        [⟨joinPath dir e.name, JobMode.remux⟩]
       else []) := by
  rw [backfillEntryJobs, if_neg (by simp [hf])]
  rw [if_neg (by rw [hext]; decide), if_pos hext, if_pos hthumb]

/-- C4 conclusion: the scan queues exactly one transcode job for a regular
.webm entry; for a regular .mp4 entry with an adjacent same-basename .jpg it
queues exactly one remux job when the probe does not report both title and
artist, and no job at all when it reports both. -/
def BackfillCountSpec (dir : String) (entries : List DirEntry)
    (probe : String → ProbeOut) (e : DirEntry) : Prop :=
  (strToLower (splitext e.name).2 = ".webm" →
    countSrc (backfillJobs dir entries probe) (joinPath dir e.name) = 1 ∧
    countJob (backfillJobs dir entries probe) (joinPath dir e.name) JobMode.transcode = 1) ∧
  (strToLower (splitext e.name).2 = ".mp4" →
    (∃ t ∈ entries, t.name = (splitext e.name).1 ++ ".jpg") →
    ((probeNeedsProcessing (probe (joinPath dir e.name)) = true →
        countSrc (backfillJobs dir entries probe) (joinPath dir e.name) = 1 ∧
        countJob (backfillJobs dir entries probe) (joinPath dir e.name) JobMode.remux = 1) ∧
     (probeNeedsProcessing (probe (joinPath dir e.name)) = false →
        countSrc (backfillJobs dir entries probe) (joinPath dir e.name) = 0)))

/-- C4: per directory state, exactly one transcode job per regular .webm
file, exactly one remux job per regular .mp4 file with adjacent .jpg whose
probe lacks title or artist, and zero jobs when the probe reports both. -/
theorem backfill_scan_counts (dir : String) (entries : List DirEntry)
    (probe : String → ProbeOut) (e : DirEntry)
    (hnd : (entries.map DirEntry.name).Nodup) (he : e ∈ entries)
    (hf : e.isFile = true) : BackfillCountSpec dir entries probe e := by
  have hnd' := nodup_removePartials entries hnd
  constructor
  · intro hext
    have hmap : (splitext e.name).2.toList.map Char.toLower = (".webm" : String).toList := by
      have h0 := congrArg String.toList hext
      rw [strToLower_toList] at h0
      exact h0
    have hlen : (splitext e.name).2.toList.length = 5 := by
      have h0 := congrArg List.length hmap
      simp only [List.length_map] at h0
      exact h0
    have hnp := not_partial_of_suffix5 e.name (splitext e.name).2.toList hlen
      (ext_isSuffix e.name)
      (fun h0 => by rw [h0] at hmap; exact absurd hmap (by decide))
      (fun h0 => by rw [h0] at hmap; exact absurd hmap (by decide))
    have hmem := mem_removePartials entries e he hnp.1 hnp.2
    have hfeq := backfillEntryJobs_webm dir (removePartials entries) probe e hf hext
    constructor
    · rw [countSrc, backfillJobs,
        countP_flatMap_unique dir _ (backfillEntryJobs_src dir (removePartials entries) probe)
          _ _ (fun j hj => of_decide_eq_true hj) (removePartials entries) hnd' e hmem rfl,
        hfeq]
      simp [ScanJob.mk.injEq]
    · rw [countJob, backfillJobs,
        countP_flatMap_unique dir _ (backfillEntryJobs_src dir (removePartials entries) probe)
          _ _ (fun j hj => (of_decide_eq_true hj).1) (removePartials entries) hnd' e hmem rfl,
        hfeq]
      simp [ScanJob.mk.injEq]
  · intro hext hthumb
    have hmap : (splitext e.name).2.toList.map Char.toLower = (".mp4" : String).toList := by
      have h0 := congrArg String.toList hext
      rw [strToLower_toList] at h0
      exact h0
    have hlen : (splitext e.name).2.toList.length = 4 := by
      have h0 := congrArg List.length hmap
      simp only [List.length_map] at h0
      exact h0
    have hnp := not_partial_of_suffix4 e.name (splitext e.name).2.toList hlen
      (ext_isSuffix e.name)
      (fun h0 => by rw [h0] at hmap; exact absurd hmap (by decide))
      (fun h0 => by rw [h0] at hmap; exact absurd hmap (by decide))
    have hmem := mem_removePartials entries e he hnp.1 hnp.2
    obtain ⟨t, ht, htn⟩ := hthumb
    have htsuf : (".jpg" : String).toList <:+ t.name.toList :=
      ⟨(splitext e.name).1.toList, by rw [htn, toList_append]⟩
    have htnp := not_partial_of_suffix4 t.name (".jpg" : String).toList (by decide)
      htsuf (by decide) (by decide)
    have htmem := mem_removePartials entries t ht htnp.1 htnp.2
    have hany : (removePartials entries).any
        (fun t => decide (t.name = (splitext e.name).1 ++ ".jpg")) = true :=
      List.any_eq_true.mpr ⟨t, htmem, decide_eq_true htn⟩
    have hfeq := backfillEntryJobs_mp4 dir (removePartials entries) probe e hf hext hany
    constructor
    · intro hneeds
      rw [if_pos hneeds] at hfeq
      constructor
      · rw [countSrc, backfillJobs,
          countP_flatMap_unique dir _ (backfillEntryJobs_src dir (removePartials entries) probe)
            _ _ (fun j hj => of_decide_eq_true hj) (removePartials entries) hnd' e hmem rfl,
          hfeq]
        simp [ScanJob.mk.injEq]
      · rw [countJob, backfillJobs,
          countP_flatMap_unique dir _ (backfillEntryJobs_src dir (removePartials entries) probe)
            _ _ (fun j hj => (of_decide_eq_true hj).1) (removePartials entries) hnd' e hmem rfl,
          hfeq]
        simp [ScanJob.mk.injEq]
    · intro hskip
      rw [if_neg (by rw [hskip]; exact Bool.false_ne_true)] at hfeq
      rw [countSrc, backfillJobs,
        countP_flatMap_unique dir _ (backfillEntryJobs_src dir (removePartials entries) probe)
          _ _ (fun j hj => of_decide_eq_true hj) (removePartials entries) hnd' e hmem rfl,
        hfeq]
      rfl

/-- Directory listing of the C4 witness: one .webm, one .mp4 with adjacent
thumbnail, one stale partial, one directory. -/
def w4entries : List DirEntry :=
  [{ name := "video [ABC12345678].webm", isFile := true },
   { name := "clip [XYZ98765432].mp4", isFile := true },
   { name := "clip [XYZ98765432].jpg", isFile := true },
   { name := "other.mp4.part", isFile := true },
   { name := "sub", isFile := false }]

/-- Probe of the C4 witness: reports no metadata fields. -/
def w4probe : String → ProbeOut := fun _ => { ok := true, returncode := 0, stdout := "" }

/-- Witness for C4 on the .webm entry of the concrete listing. -/
theorem backfill_scan_counts_witness :
    BackfillCountSpec "out" w4entries w4probe
      { name := "video [ABC12345678].webm", isFile := true } :=
  backfill_scan_counts "out" w4entries w4probe _ (by decide) (by decide) rfl

end YtFetcher
